import Mathlib

/-!
Verification of `src/subcommands/upgrade.rs` (the only source file of this
repository): a shallow embedding of its data model and of the `upgrade`
function, followed by theorems settling the specification claims.

Modelling conventions:
* Machine integers that never overflow in the code (CurseForge project ids)
  are `Int`.
* The network calls `libium::upgrade::{curseforge, modrinth, github}` are
  external collaborators; they are modelled by a `FetchOracle` parameter
  giving, for each argument tuple the code passes, the call's result. The
  code may call the same function twice with identical arguments (the
  CurseForge status-error retry); the oracle is a pure function, so such a
  retry returns the same value — the claims under study do not depend on
  retry nondeterminism.
* `tokio::spawn` concurrency: every task is spawned, every task runs to
  completion (the code awaits every handle before reading the accumulator),
  and each task pushes its own single result under the mutex. The multiset
  of accumulated results is therefore determined; only their order is
  scheduler-dependent. The embedding fixes spawn order (profile order) as
  the completion order; every claim proved about it is order-insensitive.
* A Rust panic inside a task (only possible in `From<Version>` when a
  version has no files, via `files.remove(0)`) is modelled by `Option`:
  `none` = panic.
-/

namespace Ferium

/-- `Downloadable` (upgrade.rs lines 20–24): filename and download URL of a
resolved mod file. -/
structure Downloadable where
  filename : String
  download_url : String
deriving DecidableEq, Repr

/-- The fields of `furse::structures::file_structs::File` read by
`impl From<File> for Downloadable` (lines 25–32). -/
structure CFFile where
  file_name : String
  download_url : String
deriving DecidableEq, Repr

/-- `impl From<furse::...::File> for Downloadable` (lines 25–32). -/
def Downloadable.ofCFFile (file : CFFile) : Downloadable :=
  { filename := file.file_name, download_url := file.download_url }

/-- The fields of `ferinth::structures::version_structs::VersionFile` read by
`impl From<Version> for Downloadable` (lines 33–53). -/
structure VersionFile where
  primary : Bool
  filename : String
  url : String
deriving DecidableEq, Repr

/-- `ferinth::structures::version_structs::Version`, restricted to the fields
relevant here: its file list (read by the `From` impl) and its declared
dependency project ids (present in the ferinth structure, never read by any
code in upgrade.rs). -/
structure Version where
  files : List VersionFile
  dependencies : List String
deriving DecidableEq, Repr

/-- The fields of `octocrab::models::repos::Asset` read by
`impl From<Asset> for Downloadable` (lines 54–61). -/
structure Asset where
  name : String
  browser_download_url : String
deriving DecidableEq, Repr

/-- `impl From<octocrab::...::Asset> for Downloadable` (lines 54–61). -/
def Downloadable.ofAsset (asset : Asset) : Downloadable :=
  { filename := asset.name, download_url := asset.browser_download_url }

/-- The loop of `impl From<Version> for Downloadable` (lines 35–52): walk the
version's files; on the first file marked `primary`, return it immediately;
otherwise accumulate the file into `files`. After the loop,
`files.remove(0)` takes the first accumulated file — and panics when the
accumulator is empty, modelled by `none`. -/
def fromVersionLoop : List VersionFile → List VersionFile → Option Downloadable
  | [], acc =>
    match acc with
    | [] => none
    | file :: _ => some { filename := file.filename, download_url := file.url }
  | file :: rest, acc =>
    if file.primary then
      some { filename := file.filename, download_url := file.url }
    else
      fromVersionLoop rest (acc ++ [file])

/-- `impl From<Version> for Downloadable` (lines 33–53), as a partial
conversion: `none` models the panic on a version with no files. -/
def Downloadable.ofVersion (version : Version) : Option Downloadable :=
  fromVersionLoop version.files []

/-- Helper: a `VersionFile` as a `Downloadable`. -/
def VersionFile.toDownloadable (file : VersionFile) : Downloadable :=
  { filename := file.filename, download_url := file.url }

/-- `libium::config::structs::ModLoader`, as used by upgrade.rs: the code
compares against `ModLoader::Quilt` and constructs `ModLoader::Fabric`
(lines 100, 107, 151, 158, 180, 186); `forge` stands for the remaining
loader variant(s), none of which upgrade.rs treats specially. -/
inductive ModLoader
  | quilt
  | fabric
  | forge
deriving DecidableEq, Repr

/-- `libium::config::structs::ModIdentifier`. The `match` on
`mod_.identifier` (lines 87–198) is exhaustive with exactly these three arms
and no wildcard, so this is the complete set of variants in the version this
code compiles against. -/
inductive ModIdentifier
  | curseForgeProject (projectId : Int)
  | modrinthProject (projectId : String)
  | gitHubRepository (owner repo : String)
deriving DecidableEq, Repr

/-- A profile mod entry, restricted to the fields upgrade.rs reads:
`name` (lines 210, 219), `identifier` (line 87), and the two check flags
passed through to the fetch calls. -/
structure Mod where
  name : String
  identifier : ModIdentifier
  check_game_version : Option Bool
  check_mod_loader : Option Bool
deriving DecidableEq, Repr

/-- `libium::config::structs::Profile`, restricted to the fields upgrade.rs
reads: the mod list, the game version and loader passed to every fetch, and
the output directory (paths under it are abstracted as names, see `Fs`). -/
structure Profile where
  mods : List Mod
  game_version : String
  mod_loader : ModLoader
deriving DecidableEq, Repr

/-- `libium::upgrade::Error` as observed through the only two patterns
upgrade.rs matches on:
* `noCompatibleFile` is `Error::NoCompatibleFile` (lines 99, 150, 179);
* `otherError s r` is any other variant, where `s` records whether the value
  matches `Error::CurseForgeError(furse::Error::ReqwestError(e))` with
  `e.is_status()` (lines 115–119), and `r` records whether the underlying
  cause is rate-limit exhaustion — a distinction present in the spec but
  never inspected anywhere in upgrade.rs. -/
inductive UpgradeError
  | noCompatibleFile
  | otherError (isCurseForgeReqwestStatus : Bool) (isRateLimit : Bool)
deriving DecidableEq, Repr

/-- `matches!(result, Err(upgrade::Error::NoCompatibleFile))`. -/
def isNoCompatibleFile : Except UpgradeError α → Bool
  | .error .noCompatibleFile => true
  | _ => false

/-- The pattern `Err(CurseForgeError(ReqwestError(err))) if err.is_status()`
of lines 115–119. -/
def isCurseForgeStatusError : Except UpgradeError α → Bool
  | .error (.otherError true _) => true
  | _ => false

/-- The external fetch functions `libium::upgrade::{curseforge, modrinth,
github}`: for each argument tuple the code passes (project id / repo,
game version, loader, the two check flags), the call's result. -/
structure FetchOracle where
  curseforge : Int → String → ModLoader → Option Bool → Option Bool →
    Except UpgradeError CFFile
  modrinth : String → String → ModLoader → Option Bool → Option Bool →
    Except UpgradeError Version
  github : String × String → String → ModLoader → Option Bool → Option Bool →
    Except UpgradeError Asset

/-- `result.map(Into::into)` for a Modrinth result: the error is passed
through; a success is converted by the partial `From<Version>` impl, whose
panic (empty file list) propagates as `none`. -/
def mapVersionResult : Except UpgradeError Version →
    Option (Except UpgradeError Downloadable)
  | .error e => some (.error e)
  | .ok v => (Downloadable.ofVersion v).map .ok

/-- The body of one spawned worker task (lines 85–198): dispatch on the mod's
identifier, perform the first fetch with the profile's loader, apply the
Quilt→Fabric retry when the first fetch failed with `NoCompatibleFile` and
the profile loader is Quilt (second component `true`), apply the CurseForge
same-arguments retry on a reqwest status error, and otherwise return the
first result. `none` models a task panic (Modrinth version with no files). -/
def runTask (o : FetchOracle) (p : Profile) (m : Mod) :
    Option (Except UpgradeError Downloadable × Bool) :=
  match m.identifier with
  | .curseForgeProject pid =>
    let result := o.curseforge pid p.game_version p.mod_loader
      m.check_game_version m.check_mod_loader
    if isNoCompatibleFile result = true ∧ p.mod_loader = ModLoader.quilt then
      some ((o.curseforge pid p.game_version ModLoader.fabric
        m.check_game_version m.check_mod_loader).map Downloadable.ofCFFile, true)
    else if isCurseForgeStatusError result = true then
      some ((o.curseforge pid p.game_version p.mod_loader
        m.check_game_version m.check_mod_loader).map Downloadable.ofCFFile, false)
    else
      some (result.map Downloadable.ofCFFile, false)
  | .modrinthProject pid =>
    let result := o.modrinth pid p.game_version p.mod_loader
      m.check_game_version m.check_mod_loader
    if isNoCompatibleFile result = true ∧ p.mod_loader = ModLoader.quilt then
      (mapVersionResult (o.modrinth pid p.game_version ModLoader.fabric
        m.check_game_version m.check_mod_loader)).map (fun r => (r, true))
    else
      (mapVersionResult result).map (fun r => (r, false))
  | .gitHubRepository owner repo =>
    let result := o.github (owner, repo) p.game_version p.mod_loader
      m.check_game_version m.check_mod_loader
    if isNoCompatibleFile result = true ∧ p.mod_loader = ModLoader.quilt then
      some ((o.github (owner, repo) p.game_version ModLoader.fabric
        m.check_game_version m.check_mod_loader).map Downloadable.ofAsset, true)
    else
      some (result.map Downloadable.ofAsset, false)

/-- State accumulated by the resolution phase (lines 70–236): the
`to_download` accumulator, the `error` flag, and the
`backwards_compat_msg` flag. -/
structure ResolveOutcome where
  to_download : List Downloadable
  error : Bool
  backwards_compat_msg : Bool
deriving DecidableEq, Repr

/-- The resolution phase over a mod list (lines 76–236): one task per mod;
on `Ok`, the task's `Downloadable` is pushed onto the accumulator and the
backwards-compat flag is stored when the Quilt→Fabric retry produced the
success (lines 200–217); on `Err`, the `error` flag is stored
(lines 218–221). Completion order is fixed to list order (see the module
comment); a task panic (`none`) aborts the whole run, as `handle.await?`
would. -/
def resolveMods (o : FetchOracle) (p : Profile) : List Mod → Option ResolveOutcome
  | [] => some { to_download := [], error := false, backwards_compat_msg := false }
  | m :: rest => do
    let r ← runTask o p m
    let st ← resolveMods o p rest
    match r with
    | (.ok d, bc) =>
      some { to_download := d :: st.to_download,
             error := st.error,
             backwards_compat_msg := bc || st.backwards_compat_msg }
    | (.error _, _) =>
      some { to_download := st.to_download,
             error := true,
             backwards_compat_msg := st.backwards_compat_msg }

/-- The value of `to_download` (and the two flags) after every task of the
profile has been awaited (lines 225–236). -/
def resolveProfile (o : FetchOracle) (p : Profile) : Option ResolveOutcome :=
  resolveMods o p p.mods

/-- The `Downloadable` a mod's task contributes, if its fetch succeeded. -/
def taskDownload? (o : FetchOracle) (p : Profile) (m : Mod) : Option Downloadable :=
  match runTask o p m with
  | some (.ok d, _) => some d
  | _ => none

/-- Whether a mod's task hit the `Err` branch (lines 218–221). -/
def taskErred (o : FetchOracle) (p : Profile) (m : Mod) : Bool :=
  match runTask o p m with
  | some (.error _, _) => true
  | _ => false

/-- Whether a mod's task succeeded via the Quilt→Fabric retry, i.e. took the
`YELLOW_TICK` branch that stores `backwards_compat_msg` (lines 204–206). -/
def taskBackwardsCompatSuccess (o : FetchOracle) (p : Profile) (m : Mod) : Bool :=
  match runTask o p m with
  | some (.ok _, true) => true
  | _ => false

/-- The error of a fetch result, if it is one. -/
def errOf : Except UpgradeError α → Option UpgradeError
  | .error e => some e
  | .ok _ => none

/-- The converted result of dispatching one fetch for `m` with an explicit
loader: the platform call each `match` arm of lines 87–198 makes, with every
argument except the loader taken from the profile and the mod. -/
def attemptResult (o : FetchOracle) (p : Profile) (m : Mod) (loader : ModLoader) :
    Option (Except UpgradeError Downloadable) :=
  match m.identifier with
  | .curseForgeProject pid =>
    some ((o.curseforge pid p.game_version loader
      m.check_game_version m.check_mod_loader).map Downloadable.ofCFFile)
  | .modrinthProject pid =>
    mapVersionResult (o.modrinth pid p.game_version loader
      m.check_game_version m.check_mod_loader)
  | .gitHubRepository owner repo =>
    some ((o.github (owner, repo) p.game_version loader
      m.check_game_version m.check_mod_loader).map Downloadable.ofAsset)

/-- The error, if any, of the first fetch a mod's task performs (the call
with the profile's own loader). -/
def firstAttemptError (o : FetchOracle) (p : Profile) (m : Mod) : Option UpgradeError :=
  match m.identifier with
  | .curseForgeProject pid =>
    errOf (o.curseforge pid p.game_version p.mod_loader
      m.check_game_version m.check_mod_loader)
  | .modrinthProject pid =>
    errOf (o.modrinth pid p.game_version p.mod_loader
      m.check_game_version m.check_mod_loader)
  | .gitHubRepository owner repo =>
    errOf (o.github (owner, repo) p.game_version p.mod_loader
      m.check_game_version m.check_mod_loader)

/-- The project id the Modrinth `match` arm (lines 140–169) passes to
`upgrade::modrinth`; `none` for identifiers dispatched to other platforms. -/
def modrinthProjectId : ModIdentifier → Option String
  | .modrinthProject pid => some pid
  | _ => none

/-- The relevant part of the file system: the names of the regular files
directly in the profile's output directory (in `read_dir` order), and the
regular files of its `user` subdirectory — `none` when that subdirectory
does not exist (line 239). -/
structure Fs where
  rootFiles : List String
  userFiles : Option (List String)
deriving DecidableEq, Repr

/-- Gathering `to_install` (lines 238–247): when `output_dir/user` exists,
every regular file in it is pushed as a (file name, source path) pair; the
profile's loader is not consulted. -/
def gatherToInstall (fs : Fs) : List (String × String) :=
  match fs.userFiles with
  | none => []
  | some files => files.map (fun n => (n, "user/" ++ n))

/-- `itertools::Itertools::find_position`: the first (index, element) pair
satisfying the predicate. -/
def findPosition (pred : α → Bool) : List α → Option (Nat × α)
  | [] => none
  | a :: rest =>
    if pred a then some (0, a)
    else (findPosition pred rest).map (fun ix => (ix.1 + 1, ix.2))

/-- `Vec::swap_remove(i)`: remove the element at index `i` by moving the
last element into its place. -/
def swapRemove (l : List α) (i : Nat) : List α :=
  match l.getLast? with
  | none => l
  | some last => (l.set i last).dropLast

/-- The mutable state of the reconciliation loop (lines 251–273): the two
lists it removes from, plus the names moved into `output_dir/.old`. -/
structure ReconState where
  to_download : List Downloadable
  to_install : List (String × String)
  movedToOld : List String
deriving DecidableEq, Repr

/-- One iteration of the reconciliation loop (lines 252–272), for one regular
file of the output directory root: if its name equals some `to_download`
entry's filename, `swap_remove` that entry; else if it equals some
`to_install` entry's name, `swap_remove` that entry; else `move_file` it into
`output_dir/.old` (recorded in `movedToOld` — the file is moved, not
deleted). -/
def reconcileStep (st : ReconState) (filename : String) : ReconState :=
  match findPosition (fun thing => filename == thing.filename) st.to_download with
  | some ix => { st with to_download := swapRemove st.to_download ix.1 }
  | none =>
    match findPosition (fun thing => filename == thing.1) st.to_install with
    | some ix => { st with to_install := swapRemove st.to_install ix.1 }
    | none => { st with movedToOld := st.movedToOld ++ [filename] }

/-- The whole reconciliation loop (lines 251–273) over the regular files of
the output directory root. -/
def reconcile (rootFiles : List String) (st : ReconState) : ReconState :=
  rootFiles.foldl reconcileStep st

/-- `bail!` message of line 302. -/
def aggregateErrorMessage : String :=
  "\nCould not get the latest compatible version of some mods"

deriving instance DecidableEq for Except

/-- Observable outcome of one `upgrade` call. -/
structure UpgradeOutcome where
  /-- The resolution phase's accumulator and flags (lines 70–236). -/
  resolved : ResolveOutcome
  /-- Whether the one-time backwards-compatibility notice printed
  (lines 231–236). -/
  notice : Bool
  /-- Files moved into `.old` by reconciliation. -/
  movedToOld : List String
  /-- Files fetched by the download phase (lines 275–291). -/
  downloaded : List Downloadable
  /-- `to_install` entries copied into the output root (lines 292–299). -/
  installed : List (String × String)
  /-- The function's return value (lines 301–305). -/
  result : Except String Unit
deriving DecidableEq, Repr

/-- The whole of `upgrade` (lines 63–306): resolve every mod (awaiting every
task), print the backwards-compat notice if flagged, gather `to_install`
from the `user` subdirectory, reconcile the output directory root, download
what remains in `to_download`, copy what remains in `to_install`, and bail
with the aggregate error iff the error flag was stored. Network downloads
and file copies themselves are external and modelled as succeeding; `none`
models a task panic. -/
def upgradeRun (o : FetchOracle) (p : Profile) (fs : Fs) : Option UpgradeOutcome := do
  let st ← resolveProfile o p
  let recon := reconcile fs.rootFiles
    { to_download := st.to_download, to_install := gatherToInstall fs, movedToOld := [] }
  some
    { resolved := st
      notice := st.backwards_compat_msg
      movedToOld := recon.movedToOld
      downloaded := recon.to_download
      installed := recon.to_install
      result := if st.error = true then .error aggregateErrorMessage else .ok () }

/-! ### Schedule model for the resolution phase's concurrency

The spawn loop (lines 76–224) spawns one tokio task per mod, unconditionally
and without acquiring any permit, and only afterwards awaits the handles
(lines 225–227); the task body (lines 85–223) performs its platform fetch
with no synchronization preceding the network call. Consequently every
well-formed interleaving of fetch start/finish events is a possible
execution: nothing in the code constrains how many fetches are in flight at
once. `ValidSchedule` states only well-formedness; the absence of any
further admissibility condition is the embedding of "no limiter". -/

/-- Start or finish of task `i`'s network fetch. -/
inductive FetchEvent
  | start (task : Nat)
  | finish (task : Nat)
deriving DecidableEq, Repr

/-- The task a fetch event belongs to. -/
def FetchEvent.task : FetchEvent → Nat
  | .start i => i
  | .finish i => i

/-- Whether task `i`'s fetch has started in the event sequence. -/
def startedBy (evs : List FetchEvent) (i : Nat) : Bool :=
  evs.contains (FetchEvent.start i)

/-- Whether task `i`'s fetch has finished in the event sequence. -/
def finishedBy (evs : List FetchEvent) (i : Nat) : Bool :=
  evs.contains (FetchEvent.finish i)

/-- Well-formedness of an event sequence for `n` spawned tasks: events name
spawned tasks, each task starts and finishes at most once, and a finish
requires a start. -/
def ValidSchedule (n : Nat) (evs : List FetchEvent) : Prop :=
  (∀ e ∈ evs, e.task < n) ∧
  (∀ i < n, evs.count (FetchEvent.start i) ≤ 1 ∧
    evs.count (FetchEvent.finish i) ≤ 1 ∧
    (finishedBy evs i = true → startedBy evs i = true))

instance (n : Nat) (evs : List FetchEvent) : Decidable (ValidSchedule n evs) := by
  unfold ValidSchedule; infer_instance

/-- Number of fetches in flight after the given events: tasks started but
not finished. -/
def inFlightAfter (n : Nat) (evs : List FetchEvent) : Nat :=
  ((List.range n).filter (fun i => startedBy evs i && !finishedBy evs i)).length

/-- The largest number of simultaneously in-flight fetches over all prefixes
of the event sequence. -/
def maxInFlight (n : Nat) (evs : List FetchEvent) : Nat :=
  ((List.range (evs.length + 1)).map (fun k => inFlightAfter n (evs.take k))).foldr max 0

/-! ### Oracle agreement relations -/

/-- Two Modrinth fetch results that agree except possibly on the
`dependencies` field of a returned version. -/
def VersionResultAgree :
    Except UpgradeError Version → Except UpgradeError Version → Prop
  | .ok v, .ok v' => v.files = v'.files
  | .error e, .error e' => e = e'
  | _, _ => False

/-- Two oracles that agree except possibly on the `dependencies` fields of
returned Modrinth versions. -/
def OracleAgreeUpToDeps (o o' : FetchOracle) : Prop :=
  o.curseforge = o'.curseforge ∧ o.github = o'.github ∧
  ∀ pid gv ml cgv cml,
    VersionResultAgree (o.modrinth pid gv ml cgv cml) (o'.modrinth pid gv ml cgv cml)

/-- Two fetch errors that agree except possibly on whether the underlying
cause is rate-limit exhaustion. -/
def ErrAgreeUpToRateLimit : UpgradeError → UpgradeError → Prop
  | .noCompatibleFile, .noCompatibleFile => True
  | .otherError s _, .otherError s' _ => s = s'
  | _, _ => False

/-- Two fetch results that agree except possibly on rate-limit-ness of an
error. -/
def ResultAgreeUpToRateLimit :
    Except UpgradeError α → Except UpgradeError α → Prop
  | .ok a, .ok a' => a = a'
  | .error e, .error e' => ErrAgreeUpToRateLimit e e'
  | _, _ => False

/-- Two oracles that agree except possibly on rate-limit-ness of errors. -/
def OracleAgreeUpToRateLimit (o o' : FetchOracle) : Prop :=
  (∀ pid gv ml cgv cml, ResultAgreeUpToRateLimit
    (o.curseforge pid gv ml cgv cml) (o'.curseforge pid gv ml cgv cml)) ∧
  (∀ pid gv ml cgv cml, ResultAgreeUpToRateLimit
    (o.modrinth pid gv ml cgv cml) (o'.modrinth pid gv ml cgv cml)) ∧
  (∀ nr gv ml cgv cml, ResultAgreeUpToRateLimit
    (o.github nr gv ml cgv cml) (o'.github nr gv ml cgv cml))

/-- Relation between the results of two whole worker tasks that agree on
everything the resolution phase reads: same panic-ness, same success value
and retry flag; an error's payload is unconstrained (the code only prints
it). -/
def taskResultAgree :
    Option (Except UpgradeError Downloadable × Bool) →
    Option (Except UpgradeError Downloadable × Bool) → Prop
  | none, none => True
  | some (.ok d, bc), some (.ok d', bc') => d = d' ∧ bc = bc'
  | some (.error _, bc), some (.error _, bc') => bc = bc'
  | _, _ => False

/-! ### Concrete instances for counterexamples and witnesses -/

/-- Primary Modrinth file of mod X. -/
def fileX : VersionFile := { primary := true, filename := "x.jar", url := "ux" }

/-- Mod X's resolved file as a `Downloadable`. -/
def dlX : Downloadable := { filename := "x.jar", download_url := "ux" }

/-- Mod X's fetched metadata, declaring no dependencies. -/
def versionX : Version := { files := [fileX], dependencies := [] }

/-- Mod X's fetched metadata, declaring a dependency on project "Y". -/
def versionXDepY : Version := { files := [fileX], dependencies := ["Y"] }

/-- Primary Modrinth file of mod Z. -/
def fileZ : VersionFile := { primary := true, filename := "z.jar", url := "uz" }

/-- Mod Z's resolved file as a `Downloadable`. -/
def dlZ : Downloadable := { filename := "z.jar", download_url := "uz" }

/-- Mod Z's fetched metadata. -/
def versionZ : Version := { files := [fileZ], dependencies := [] }

/-- A profile mod on Modrinth project "px". -/
def modX : Mod :=
  { name := "X", identifier := .modrinthProject "px",
    check_game_version := none, check_mod_loader := none }

/-- A profile mod on Modrinth project "pz". -/
def modZ : Mod :=
  { name := "Z", identifier := .modrinthProject "pz",
    check_game_version := none, check_mod_loader := none }

/-- A profile holding mod X once. -/
def profileX : Profile :=
  { mods := [modX], game_version := "1.19", mod_loader := .forge }

/-- A profile holding the same mod entry twice. -/
def profileDup : Profile :=
  { mods := [modX, modX], game_version := "1.19", mod_loader := .forge }

/-- A profile holding mods X and Z. -/
def profileXZ : Profile :=
  { mods := [modX, modZ], game_version := "1.19", mod_loader := .forge }

/-- A Quilt profile holding mod X. -/
def profileQuilt : Profile :=
  { mods := [modX], game_version := "1.19", mod_loader := .quilt }

/-- Oracle: project "px" resolves to metadata declaring dependency "Y",
any other Modrinth project resolves to mod Z's metadata. -/
def oracleDep : FetchOracle :=
  { curseforge := fun _ _ _ _ _ => .error (.otherError false false)
    modrinth := fun pid _ _ _ _ =>
      if pid = "px" then .ok versionXDepY else .ok versionZ
    github := fun _ _ _ _ _ => .error (.otherError false false) }

/-- `oracleDep` with the dependency list of "px" stripped. -/
def oracleNoDep : FetchOracle :=
  { curseforge := fun _ _ _ _ _ => .error (.otherError false false)
    modrinth := fun pid _ _ _ _ =>
      if pid = "px" then .ok versionX else .ok versionZ
    github := fun _ _ _ _ _ => .error (.otherError false false) }

/-- Oracle: project "px" fails with a rate-limit-exhaustion error, any
other Modrinth project resolves to mod Z's metadata. -/
def oracleRateLimited : FetchOracle :=
  { curseforge := fun _ _ _ _ _ => .error (.otherError false false)
    modrinth := fun pid _ _ _ _ =>
      if pid = "px" then .error (.otherError false true) else .ok versionZ
    github := fun _ _ _ _ _ => .error (.otherError false false) }

/-- Oracle: project "px" fails with an ordinary (non-rate-limit) error, any
other Modrinth project resolves to mod Z's metadata. -/
def oracleFailX : FetchOracle :=
  { curseforge := fun _ _ _ _ _ => .error (.otherError false false)
    modrinth := fun pid _ _ _ _ =>
      if pid = "px" then .error (.otherError false false) else .ok versionZ
    github := fun _ _ _ _ _ => .error (.otherError false false) }

/-- Oracle: every Modrinth fetch with the Quilt loader fails with
`NoCompatibleFile`; with any other loader it resolves to mod X's file. -/
def oracleQuiltNoCompat : FetchOracle :=
  { curseforge := fun _ _ _ _ _ => .error (.otherError false false)
    modrinth := fun _ _ ml _ _ =>
      if ml = ModLoader.quilt then .error .noCompatibleFile else .ok versionX
    github := fun _ _ _ _ _ => .error (.otherError false false) }

/-- An output directory with no files and no `user` subdirectory. -/
def fsEmpty : Fs := { rootFiles := [], userFiles := none }

/-- An output directory with an empty root and a `user` subdirectory holding
one file. -/
def fsUser : Fs := { rootFiles := [], userFiles := some ["extra.jar"] }

/-- Outcome of upgrading `profileXZ` against `oracleFailX` over `fsEmpty`. -/
def outXZ : UpgradeOutcome :=
  { resolved := { to_download := [dlZ], error := true, backwards_compat_msg := false }
    notice := false
    movedToOld := []
    downloaded := [dlZ]
    installed := []
    result := .error aggregateErrorMessage }

/-- Outcome of upgrading `profileX` against `oracleNoDep` over `fsUser`. -/
def outXUser : UpgradeOutcome :=
  { resolved := { to_download := [dlX], error := false, backwards_compat_msg := false }
    notice := false
    movedToOld := []
    downloaded := [dlX]
    installed := [("extra.jar", "user/extra.jar")]
    result := .ok () }

/-- A reconciliation state holding mod X's file and one install candidate. -/
def reconStW : ReconState :=
  { to_download := [dlX]
    to_install := [("extra.jar", "user/extra.jar")]
    movedToOld := [] }

/-! ## Helper lemmas -/

theorem fromVersionLoop_no_primary (files acc : List VersionFile)
    (h : ∀ f ∈ files, f.primary = false) :
    fromVersionLoop files acc = (acc ++ files).head?.map VersionFile.toDownloadable := by
  induction files generalizing acc with
  | nil =>
    simp only [fromVersionLoop, List.append_nil]
    cases acc <;> rfl
  | cons file rest ih =>
    have hf : file.primary = false := h file (List.mem_cons_self _ _)
    simp only [fromVersionLoop, hf, Bool.false_eq_true, if_false]
    rw [ih (acc ++ [file]) (fun f hmem => h f (List.mem_cons_of_mem _ hmem))]
    simp [List.append_assoc]

theorem fromVersionLoop_primary (files acc : List VersionFile) (f : VersionFile)
    (h : files.find? (·.primary) = some f) :
    fromVersionLoop files acc = some f.toDownloadable := by
  induction files generalizing acc with
  | nil => simp [List.find?] at h
  | cons file rest ih =>
    by_cases hp : file.primary
    · rw [List.find?_cons_of_pos _ hp] at h
      cases h
      simp [fromVersionLoop, hp, VersionFile.toDownloadable]
    · have hp' : file.primary = false := by simpa using hp
      rw [List.find?_cons_of_neg _ (by simp [hp'])] at h
      simp only [fromVersionLoop, hp', Bool.false_eq_true, if_false]
      exact ih _ h

theorem findPosition_eq_none_iff (pred : α → Bool) (l : List α) :
    findPosition pred l = none ↔ ∀ a ∈ l, pred a = false := by
  induction l with
  | nil => simp [findPosition]
  | cons a rest ih =>
    by_cases hp : pred a
    · simp [findPosition, hp]
    · have hp' : pred a = false := by simpa using hp
      simp [findPosition, hp', Option.map_eq_none', ih]

theorem findPosition_some (pred : α → Bool) (l : List α) (i : Nat) (x : α)
    (h : findPosition pred l = some (i, x)) :
    ∃ hi : i < l.length, l.get ⟨i, hi⟩ = x ∧ pred x = true := by
  induction l generalizing i with
  | nil => simp [findPosition] at h
  | cons a rest ih =>
    by_cases hp : pred a
    · simp only [findPosition, hp, if_true, Option.some.injEq, Prod.mk.injEq] at h
      obtain ⟨hi, hx⟩ := h
      subst hi; subst hx
      exact ⟨Nat.succ_pos _, rfl, hp⟩
    · have hp' : pred a = false := by simpa using hp
      simp only [findPosition, hp', Bool.false_eq_true, if_false] at h
      cases hrest : findPosition pred rest with
      | none => rw [hrest] at h; simp at h
      | some ix =>
        obtain ⟨j, y⟩ := ix
        rw [hrest] at h
        simp only [Option.map_some', Option.some.injEq, Prod.mk.injEq] at h
        obtain ⟨hi, hx⟩ := h
        obtain ⟨hlt, hget, hpred⟩ := ih j (by rw [hrest, hx])
        refine ⟨?_, ?_, hpred⟩
        · rw [← hi]; exact Nat.succ_lt_succ hlt
        · have hieq : i = j + 1 := hi.symm
          subst hieq
          simpa using hget

theorem swapRemove_perm (l : List α) (i : Nat) (hi : i < l.length) :
    (swapRemove l i).Perm (l.eraseIdx i) := by
  have hne : l ≠ [] := List.ne_nil_of_length_pos (Nat.lt_of_le_of_lt (Nat.zero_le _) hi)
  obtain ⟨x, hlast⟩ : ∃ x, l.getLast? = some x := ⟨_, List.getLast?_eq_getLast l hne⟩
  have hsw : swapRemove l i = (l.set i x).dropLast := by
    unfold swapRemove
    rw [hlast]
  rw [hsw, List.set_eq_take_cons_drop _ hi, List.eraseIdx_eq_take_drop_succ]
  by_cases hd : l.drop (i + 1) = []
  · rw [hd, List.dropLast_append]
    simp
  · have hgl : (l.drop (i + 1)).getLast? = some x := by
      rw [← hlast]
      conv_rhs =>
        rw [show l = l.take (i + 1) ++ l.drop (i + 1) from (List.take_append_drop _ l).symm]
      exact (List.getLast?_append_of_ne_nil _ hd).symm
    rw [List.dropLast_append]
    rw [if_neg (by simp)]
    refine List.Perm.append_left _ ?_
    have hdl : (x :: l.drop (i + 1)).dropLast = x :: (l.drop (i + 1)).dropLast := by
      cases hdrop2 : l.drop (i + 1) with
      | nil => exact absurd hdrop2 hd
      | cons c rest2 => simp [List.dropLast]
    rw [hdl]
    have hxlast : l.drop (i + 1) = (l.drop (i + 1)).dropLast ++ [x] := by
      have hgl2 := List.getLast?_eq_getLast (l.drop (i + 1)) hd
      rw [hgl2] at hgl
      have hx : (l.drop (i + 1)).getLast hd = x := by
        exact Option.some.inj hgl
      rw [← hx]
      exact (List.dropLast_append_getLast hd).symm
    have hperm : (x :: (l.drop (i + 1)).dropLast).Perm
        ((l.drop (i + 1)).dropLast ++ [x]) := (List.perm_append_singleton _ _).symm
    conv_rhs => rw [hxlast]
    exact hperm

theorem list_decomp_at (l : List α) (i : Nat) (hi : i < l.length) :
    l = l.take i ++ l.get ⟨i, hi⟩ :: l.drop (i + 1) := by
  conv_lhs => rw [← List.take_append_drop i l]
  congr 1
  rw [List.get_eq_getElem]
  exact (List.getElem_cons_drop l i hi).symm

theorem swapRemove_length (l : List α) (i : Nat) (hi : i < l.length) :
    (swapRemove l i).length + 1 = l.length := by
  have hp := (swapRemove_perm l i hi).length_eq
  rw [List.length_eraseIdx, if_pos hi] at hp
  omega

theorem swapRemove_countP (pr : α → Bool) (l : List α) (i : Nat) (hi : i < l.length)
    (hpr : pr (l.get ⟨i, hi⟩) = true) :
    (swapRemove l i).countP pr + 1 = l.countP pr := by
  have hp := (swapRemove_perm l i hi).countP_eq pr
  rw [List.eraseIdx_eq_take_drop_succ, List.countP_append] at hp
  conv_rhs => rw [list_decomp_at l i hi]
  rw [List.countP_append, List.countP_cons, hpr]
  simp only [eq_self_iff_true, if_true]
  omega

theorem mem_swapRemove_of_get_ne (l : List α) (i : Nat) (hi : i < l.length)
    (d : α) (hd : d ∈ l) (hne : l.get ⟨i, hi⟩ ≠ d) : d ∈ swapRemove l i := by
  rw [(swapRemove_perm l i hi).mem_iff, List.eraseIdx_eq_take_drop_succ]
  have := hd
  rw [list_decomp_at l i hi] at this
  rcases List.mem_append.mp this with htake | hcons
  · exact List.mem_append.mpr (Or.inl htake)
  · rcases List.mem_cons.mp hcons with heq | hdrop
    · exact absurd heq.symm hne
    · exact List.mem_append.mpr (Or.inr hdrop)

theorem resolveMods_char (o : FetchOracle) (p : Profile) (mods : List Mod)
    (st : ResolveOutcome) (h : resolveMods o p mods = some st) :
    st.to_download = mods.filterMap (taskDownload? o p) ∧
    st.error = mods.any (taskErred o p) ∧
    st.backwards_compat_msg = mods.any (taskBackwardsCompatSuccess o p) := by
  induction mods generalizing st with
  | nil =>
    simp only [resolveMods, Option.some.injEq] at h
    subst h
    simp
  | cons m rest ih =>
    simp only [resolveMods, Option.bind_eq_bind] at h
    cases hr : runTask o p m with
    | none => rw [hr] at h; simp at h
    | some r =>
      rw [hr] at h
      cases hrest : resolveMods o p rest with
      | none => rw [hrest] at h; simp at h
      | some st' =>
        rw [hrest] at h
        obtain ⟨res, bc⟩ := r
        obtain ⟨hdl, herr, hbc⟩ := ih st' hrest
        cases res with
        | ok d =>
          simp only [Option.some_bind, Option.some.injEq] at h
          subst h
          have htd : taskDownload? o p m = some d := by simp [taskDownload?, hr]
          have hte : taskErred o p m = false := by simp [taskErred, hr]
          have htb : taskBackwardsCompatSuccess o p m = bc := by
            cases bc <;> simp [taskBackwardsCompatSuccess, hr]
          refine ⟨?_, ?_, ?_⟩
          · simp [List.filterMap_cons, htd, hdl]
          · simp [List.any_cons, hte, herr]
          · simp [List.any_cons, htb, hbc]
        | error e =>
          simp only [Option.some_bind, Option.some.injEq] at h
          subst h
          have htd : taskDownload? o p m = none := by simp [taskDownload?, hr]
          have hte : taskErred o p m = true := by simp [taskErred, hr]
          have htb : taskBackwardsCompatSuccess o p m = false := by
            simp [taskBackwardsCompatSuccess, hr]
          refine ⟨?_, ?_, ?_⟩
          · simp [List.filterMap_cons, htd, hdl]
          · simp [List.any_cons, hte]
          · simp [List.any_cons, htb, hbc]

theorem length_filterMap_eq_length_filter (f : α → Option β) (l : List α) :
    (l.filterMap f).length = (l.filter (fun a => (f a).isSome)).length := by
  induction l with
  | nil => rfl
  | cons a rest ih =>
    cases hfa : f a with
    | none => simp [List.filterMap_cons, List.filter_cons, hfa, ih]
    | some b => simp [List.filterMap_cons, List.filter_cons, hfa, ih]

theorem modrinthProjectId_eq_some {i : ModIdentifier} {pid : String}
    (h : modrinthProjectId i = some pid) : i = .modrinthProject pid := by
  cases i with
  | curseForgeProject q => simp [modrinthProjectId] at h
  | modrinthProject q =>
    simp only [modrinthProjectId, Option.some.injEq] at h
    rw [h]
  | gitHubRepository ow re => simp [modrinthProjectId] at h

/-! ## Claim theorems -/

/-- C10: converting a Modrinth `Version` into a `Downloadable` returns the
version's (first) primary file when one exists, otherwise the first file of
its list; and the conversion is partial — it yields no value (the Rust code
panics in `files.remove(0)`) exactly when the file list is empty. -/
theorem C10_version_conversion_selects_primary_else_first (v : Version) :
    (Downloadable.ofVersion v =
      match v.files.find? (·.primary) with
      | some f => some f.toDownloadable
      | none => v.files.head?.map VersionFile.toDownloadable) ∧
    (Downloadable.ofVersion v = none ↔ v.files = []) := by
  cases hfind : v.files.find? (·.primary) with
  | some f =>
    have hres : Downloadable.ofVersion v = some f.toDownloadable :=
      fromVersionLoop_primary _ _ _ hfind
    refine ⟨by rw [hres], ?_⟩
    constructor
    · intro hnone; rw [hres] at hnone; exact absurd hnone (by simp)
    · intro hnil; rw [hnil] at hfind; simp [List.find?] at hfind
  | none =>
    have hnp : ∀ f ∈ v.files, f.primary = false := by
      intro f hmem
      have := List.find?_eq_none.mp hfind f hmem
      simpa using this
    have hres : Downloadable.ofVersion v =
        v.files.head?.map VersionFile.toDownloadable := by
      have := fromVersionLoop_no_primary v.files [] hnp
      simpa [Downloadable.ofVersion] using this
    refine ⟨by rw [hres], ?_⟩
    rw [hres]
    cases v.files <;> simp

/-- C5 counterexample: the claim posits a fourth, version-pinned platform-B
variant — a family of identifiers, distinct for distinct (project, file)
pairs, all dispatched to Modrinth with the given project id. No such family
exists: the only identifiers the Modrinth arm of the `match` (lines 140–169)
handles are `modrinthProject pid` themselves, so the family cannot be
injective in the file id. -/
theorem C5_counterexample :
    ¬ ∃ pin : String → String → ModIdentifier,
      (Function.Injective fun pr : String × String => pin pr.1 pr.2) ∧
      ∀ pid fid, modrinthProjectId (pin pid fid) = some pid := by
  rintro ⟨pin, hinj, hall⟩
  have h1 : pin "a" "b" = .modrinthProject "a" := modrinthProjectId_eq_some (hall "a" "b")
  have h2 : pin "a" "c" = .modrinthProject "a" := modrinthProjectId_eq_some (hall "a" "c")
  have hpair : (("a", "b") : String × String) = ("a", "c") := hinj (h1.trans h2.symm)
  exact absurd hpair (by decide)

/-- C5 amended: the item-reference identifier type is a closed set of exactly
three variants — catalog-A (CurseForge) project, catalog-B (Modrinth)
project, and source-repo (GitHub) owner+repo; there is no pinned variant,
and two identifiers referencing platform B with the same project id are
structurally equal (so "same underlying item" is plain structural
equality). -/
theorem C5_amended_three_variants :
    (∀ i : ModIdentifier,
      (∃ pid, i = .curseForgeProject pid) ∨
      (∃ pid, i = .modrinthProject pid) ∨
      (∃ owner repo, i = .gitHubRepository owner repo)) ∧
    (∀ a b : ModIdentifier, ∀ pid : String,
      modrinthProjectId a = some pid → modrinthProjectId b = some pid → a = b) := by
  constructor
  · intro i
    cases i with
    | curseForgeProject pid => exact Or.inl ⟨pid, rfl⟩
    | modrinthProject pid => exact Or.inr (Or.inl ⟨pid, rfl⟩)
    | gitHubRepository owner repo => exact Or.inr (Or.inr ⟨owner, repo, rfl⟩)
  · intro a b pid ha hb
    rw [modrinthProjectId_eq_some ha, modrinthProjectId_eq_some hb]

/-- C5 witness: the pin-state-free equality rule applied at a concrete
platform-B project id. -/
theorem C5_witness :
    ModIdentifier.modrinthProject "a" = ModIdentifier.modrinthProject "a" :=
  C5_amended_three_variants.2 _ _ "a" rfl rfl

/-- C2 counterexample: a profile listing the same Modrinth reference twice
resolves to two `Downloadable` entries although the profile names exactly
one distinct underlying item reference — the claimed at-most-one-entry-per-
reference invariant fails (the code performs no dedup). -/
theorem C2_counterexample :
    resolveProfile oracleDep profileDup = some ⟨[dlX, dlX], false, false⟩ ∧
    (profileDup.mods.map (fun m => m.identifier)).dedup =
      [.modrinthProject "px"] := by
  decide

/-- C2 amended: the resolved list contains exactly one entry per profile mod
occurrence whose fetch succeeded — duplicate profile entries yield duplicate
entries; no dedup against distinct underlying references occurs. -/
theorem C2_one_entry_per_successful_mod_occurrence (o : FetchOracle) (p : Profile)
    (st : ResolveOutcome) (h : resolveProfile o p = some st) :
    st.to_download.length =
      (p.mods.filter (fun m => (taskDownload? o p m).isSome)).length := by
  obtain ⟨hdl, -, -⟩ := resolveMods_char o p p.mods st h
  rw [hdl]
  exact length_filterMap_eq_length_filter _ _

/-- C2 witness: the per-occurrence count rule applied to the
duplicate-entry profile. -/
theorem C2_witness :
    (⟨[dlX, dlX], false, false⟩ : ResolveOutcome).to_download.length =
      (profileDup.mods.filter
        (fun m => (taskDownload? oracleDep profileDup m).isSome)).length :=
  C2_one_entry_per_successful_mod_occurrence oracleDep profileDup _ (by decide)

theorem mapVersionResult_congr {r r' : Except UpgradeError Version}
    (h : VersionResultAgree r r') : mapVersionResult r = mapVersionResult r' := by
  cases r with
  | ok v =>
    cases r' with
    | ok v' =>
      have hf : v.files = v'.files := h
      simp only [mapVersionResult, Downloadable.ofVersion, hf]
    | error e' => exact (h : False).elim
  | error e =>
    cases r' with
    | ok v' => exact (h : False).elim
    | error e' =>
      have he : e = e' := h
      rw [he]

theorem isNoCompatibleFile_congr_deps {r r' : Except UpgradeError Version}
    (h : VersionResultAgree r r') : isNoCompatibleFile r = isNoCompatibleFile r' := by
  cases r with
  | ok v =>
    cases r' with
    | ok v' => rfl
    | error e' => exact (h : False).elim
  | error e =>
    cases r' with
    | ok v' => exact (h : False).elim
    | error e' => rw [show e = e' from h]

theorem runTask_congr_deps (o o' : FetchOracle) (h : OracleAgreeUpToDeps o o')
    (p : Profile) (m : Mod) : runTask o p m = runTask o' p m := by
  obtain ⟨hcf, hgh, hmr⟩ := h
  cases hid : m.identifier with
  | curseForgeProject pid => simp only [runTask, hid, hcf]
  | gitHubRepository owner repo => simp only [runTask, hid, hgh]
  | modrinthProject pid =>
    have h1 := hmr pid p.game_version p.mod_loader m.check_game_version m.check_mod_loader
    have h2 := hmr pid p.game_version ModLoader.fabric m.check_game_version m.check_mod_loader
    simp only [runTask, hid]
    rw [isNoCompatibleFile_congr_deps h1]
    by_cases hc : isNoCompatibleFile (o'.modrinth pid p.game_version p.mod_loader
        m.check_game_version m.check_mod_loader) = true ∧ p.mod_loader = ModLoader.quilt
    · rw [if_pos hc, if_pos hc, mapVersionResult_congr h2]
    · rw [if_neg hc, if_neg hc, mapVersionResult_congr h1]

theorem resolveMods_congr_deps (o o' : FetchOracle) (h : OracleAgreeUpToDeps o o')
    (p : Profile) (mods : List Mod) : resolveMods o p mods = resolveMods o' p mods := by
  induction mods with
  | nil => rfl
  | cons m rest ih =>
    simp only [resolveMods, Option.bind_eq_bind]
    rw [runTask_congr_deps o o' h p m, ih]

/-- C1 counterexample: mod X's fetched metadata declares dependency project
"Y", which no profile entry references; the resolved set nonetheless
consists solely of X's own file — no entry for Y (with or without a
synthesized name) is ever added, because the accumulator only ever receives
each task's own converted result (lines 213–216). -/
theorem C1_counterexample :
    resolveProfile oracleDep profileX = some ⟨[dlX], false, false⟩ ∧
    oracleDep.modrinth "px" profileX.game_version profileX.mod_loader none none
      = .ok versionXDepY ∧
    versionXDepY.dependencies = ["Y"] ∧
    (∀ m ∈ profileX.mods, m.identifier ≠ .modrinthProject "Y") := by
  decide

/-- C1 amended: dependencies declared in fetched metadata are ignored — the
resolution outcome is unchanged under arbitrary changes to the
`dependencies` field of every fetched version, and the resolved set is
exactly the successful fetch results of the profile's own mods (nothing is
synthesized for dependencies). -/
theorem C1_dependencies_ignored (o o' : FetchOracle) (h : OracleAgreeUpToDeps o o')
    (p : Profile) :
    resolveProfile o p = resolveProfile o' p ∧
    (∀ st, resolveProfile o p = some st →
      st.to_download = p.mods.filterMap (taskDownload? o p)) := by
  constructor
  · exact resolveMods_congr_deps o o' h p p.mods
  · intro st hst
    exact (resolveMods_char o p p.mods st hst).1

/-- C1 witness: stripping the dependency declaration from mod X's metadata
leaves the resolution outcome unchanged. -/
theorem C1_witness :
    resolveProfile oracleDep profileX = resolveProfile oracleNoDep profileX := by
  have hagree : OracleAgreeUpToDeps oracleDep oracleNoDep := by
    refine ⟨rfl, rfl, ?_⟩
    intro pid gv ml cgv cml
    by_cases hp : pid = "px"
    · simp only [oracleDep, oracleNoDep, hp, if_pos]
      exact (rfl : versionXDepY.files = versionX.files)
    · simp only [oracleDep, oracleNoDep, if_neg hp]
      exact (rfl : versionZ.files = versionZ.files)
  exact (C1_dependencies_ignored oracleDep oracleNoDep hagree profileX).1

theorem isNoCompatibleFile_congr_rl {α : Type} {r r' : Except UpgradeError α}
    (h : ResultAgreeUpToRateLimit r r') :
    isNoCompatibleFile r = isNoCompatibleFile r' := by
  cases r with
  | ok a =>
    cases r' with
    | ok a' => rfl
    | error e' => exact (h : False).elim
  | error e =>
    cases r' with
    | ok a' => exact (h : False).elim
    | error e' =>
      cases e with
      | noCompatibleFile =>
        cases e' with
        | noCompatibleFile => rfl
        | otherError s r => exact (h : False).elim
      | otherError s rl =>
        cases e' with
        | noCompatibleFile => exact (h : False).elim
        | otherError s' rl' => rfl

theorem isCurseForgeStatusError_congr_rl {α : Type} {r r' : Except UpgradeError α}
    (h : ResultAgreeUpToRateLimit r r') :
    isCurseForgeStatusError r = isCurseForgeStatusError r' := by
  cases r with
  | ok a =>
    cases r' with
    | ok a' => rfl
    | error e' => exact (h : False).elim
  | error e =>
    cases r' with
    | ok a' => exact (h : False).elim
    | error e' =>
      cases e with
      | noCompatibleFile =>
        cases e' with
        | noCompatibleFile => rfl
        | otherError s r => exact (h : False).elim
      | otherError s rl =>
        cases e' with
        | noCompatibleFile => exact (h : False).elim
        | otherError s' rl' =>
          have hs : s = s' := h
          rw [hs]
          cases s' <;> rfl

theorem taskResultAgree_refl (x : Option (Except UpgradeError Downloadable × Bool)) :
    taskResultAgree x x := by
  match x with
  | none => trivial
  | some (.ok d, bc) => exact ⟨rfl, rfl⟩
  | some (.error e, bc) => exact (rfl : bc = bc)

theorem taskResultAgree_map {α : Type} (g : α → Downloadable)
    {r r' : Except UpgradeError α} (h : ResultAgreeUpToRateLimit r r') (b : Bool) :
    taskResultAgree (some (r.map g, b)) (some (r'.map g, b)) := by
  cases r with
  | ok a =>
    cases r' with
    | ok a' => exact ⟨congrArg g (h : a = a'), rfl⟩
    | error e' => exact (h : False).elim
  | error e =>
    cases r' with
    | ok a' => exact (h : False).elim
    | error e' => exact (rfl : b = b)

theorem taskResultAgree_mapVersion {r r' : Except UpgradeError Version}
    (h : ResultAgreeUpToRateLimit r r') (b : Bool) :
    taskResultAgree ((mapVersionResult r).map (fun x => (x, b)))
      ((mapVersionResult r').map (fun x => (x, b))) := by
  cases r with
  | ok v =>
    cases r' with
    | ok v' =>
      rw [show v = v' from h]
      exact taskResultAgree_refl _
    | error e' => exact (h : False).elim
  | error e =>
    cases r' with
    | ok v' => exact (h : False).elim
    | error e' => exact (rfl : b = b)

theorem runTask_agree_rl (o o' : FetchOracle) (h : OracleAgreeUpToRateLimit o o')
    (p : Profile) (m : Mod) : taskResultAgree (runTask o p m) (runTask o' p m) := by
  obtain ⟨hcf, hmr, hgh⟩ := h
  cases hid : m.identifier with
  | curseForgeProject pid =>
    have h1 := hcf pid p.game_version p.mod_loader m.check_game_version m.check_mod_loader
    have h2 := hcf pid p.game_version ModLoader.fabric m.check_game_version m.check_mod_loader
    simp only [runTask, hid]
    rw [isNoCompatibleFile_congr_rl h1]
    by_cases hc : isNoCompatibleFile (o'.curseforge pid p.game_version p.mod_loader
        m.check_game_version m.check_mod_loader) = true ∧ p.mod_loader = ModLoader.quilt
    · rw [if_pos hc, if_pos hc]
      exact taskResultAgree_map _ h2 true
    · rw [if_neg hc, if_neg hc]
      rw [isCurseForgeStatusError_congr_rl h1]
      by_cases hs : isCurseForgeStatusError (o'.curseforge pid p.game_version p.mod_loader
          m.check_game_version m.check_mod_loader) = true
      · rw [if_pos hs, if_pos hs]
        exact taskResultAgree_map _ h1 false
      · rw [if_neg hs, if_neg hs]
        exact taskResultAgree_map _ h1 false
  | modrinthProject pid =>
    have h1 := hmr pid p.game_version p.mod_loader m.check_game_version m.check_mod_loader
    have h2 := hmr pid p.game_version ModLoader.fabric m.check_game_version m.check_mod_loader
    simp only [runTask, hid]
    rw [isNoCompatibleFile_congr_rl h1]
    by_cases hc : isNoCompatibleFile (o'.modrinth pid p.game_version p.mod_loader
        m.check_game_version m.check_mod_loader) = true ∧ p.mod_loader = ModLoader.quilt
    · rw [if_pos hc, if_pos hc]
      exact taskResultAgree_mapVersion h2 true
    · rw [if_neg hc, if_neg hc]
      exact taskResultAgree_mapVersion h1 false
  | gitHubRepository owner repo =>
    have h1 := hgh (owner, repo) p.game_version p.mod_loader m.check_game_version m.check_mod_loader
    have h2 := hgh (owner, repo) p.game_version ModLoader.fabric m.check_game_version m.check_mod_loader
    simp only [runTask, hid]
    rw [isNoCompatibleFile_congr_rl h1]
    by_cases hc : isNoCompatibleFile (o'.github (owner, repo) p.game_version p.mod_loader
        m.check_game_version m.check_mod_loader) = true ∧ p.mod_loader = ModLoader.quilt
    · rw [if_pos hc, if_pos hc]
      exact taskResultAgree_map _ h2 true
    · rw [if_neg hc, if_neg hc]
      exact taskResultAgree_map _ h1 false

theorem resolveMods_congr_rl (o o' : FetchOracle) (h : OracleAgreeUpToRateLimit o o')
    (p : Profile) (mods : List Mod) : resolveMods o p mods = resolveMods o' p mods := by
  induction mods with
  | nil => rfl
  | cons m rest ih =>
    have hrel := runTask_agree_rl o o' h p m
    simp only [resolveMods, Option.bind_eq_bind]
    cases hr : runTask o p m with
    | none =>
      cases hr' : runTask o' p m with
      | none => rfl
      | some r' =>
        rw [hr, hr'] at hrel
        obtain ⟨res', bc'⟩ := r'
        cases res' <;> exact (hrel : False).elim
    | some r =>
      cases hr' : runTask o' p m with
      | none =>
        rw [hr, hr'] at hrel
        obtain ⟨res, bc⟩ := r
        cases res <;> exact (hrel : False).elim
      | some r' =>
        rw [hr, hr'] at hrel
        obtain ⟨res, bc⟩ := r
        obtain ⟨res', bc'⟩ := r'
        cases res with
        | ok d =>
          cases res' with
          | ok d' =>
            obtain ⟨hd, hbc⟩ := (hrel : d = d' ∧ bc = bc')
            rw [hd, hbc, ih]
          | error e' => exact (hrel : False).elim
        | error e =>
          cases res' with
          | ok d' => exact (hrel : False).elim
          | error e' =>
            have hbc : bc = bc' := hrel
            rw [ih]
            rfl

/-- C3 counterexample: a run in which mod X's fetch fails with
rate-limit-exhaustion produces the very same outcome as the run in which it
fails with an ordinary error — sibling Z is still dispatched and resolved,
its download is still performed, and the operation ends with the generic
aggregated error (line 302). No fatal, dispatch-aborting, rate-limit-specific
path exists. -/
theorem C3_counterexample :
    upgradeRun oracleRateLimited profileXZ fsEmpty = some outXZ ∧
    upgradeRun oracleFailX profileXZ fsEmpty = some outXZ ∧
    outXZ.resolved.to_download = [dlZ] ∧
    outXZ.downloaded = [dlZ] ∧
    outXZ.result = .error aggregateErrorMessage := by
  decide

/-- C3 amended: a rate-limit-exceeded fetch failure takes the same non-fatal
per-item error path as every other failure: the whole-run behaviour is
unchanged when the rate-limit-ness of any error is toggled, and the final
result is the single aggregated error exactly when some item failed — there
is no distinct, operation-aborting treatment. -/
theorem C3_rate_limit_error_not_distinct (o o' : FetchOracle)
    (h : OracleAgreeUpToRateLimit o o') (p : Profile) (fs : Fs) :
    upgradeRun o p fs = upgradeRun o' p fs ∧
    (∀ out, upgradeRun o p fs = some out →
      (out.result = .error aggregateErrorMessage ↔ out.resolved.error = true)) := by
  constructor
  · unfold upgradeRun resolveProfile
    rw [resolveMods_congr_rl o o' h p p.mods]
  · intro out hout
    unfold upgradeRun at hout
    cases hres : resolveProfile o p with
    | none => rw [hres] at hout; simp at hout
    | some st =>
      rw [hres] at hout
      simp only [Option.bind_eq_bind, Option.some_bind, Option.some.injEq] at hout
      subst hout
      cases herr : st.error with
      | true => simp [herr]
      | false => simp [herr]

/-- C3 witness: toggling the rate-limit flag of mod X's failure leaves the
whole run unchanged. -/
theorem C3_witness :
    upgradeRun oracleRateLimited profileXZ fsEmpty
      = upgradeRun oracleFailX profileXZ fsEmpty := by
  have hagree : OracleAgreeUpToRateLimit oracleRateLimited oracleFailX := by
    refine ⟨?_, ?_, ?_⟩
    · intro pid gv ml cgv cml
      exact (rfl : false = false)
    · intro pid gv ml cgv cml
      by_cases hp : pid = "px"
      · simp only [oracleRateLimited, oracleFailX, hp, if_pos]
        exact (rfl : false = false)
      · simp only [oracleRateLimited, oracleFailX, if_neg hp]
        exact (rfl : versionZ = versionZ)
    · intro nr gv ml cgv cml
      exact (rfl : false = false)
  exact (C3_rate_limit_error_not_distinct oracleRateLimited oracleFailX hagree
    profileXZ fsEmpty).1

theorem reconcileStep_mem_to_download (st : ReconState) (f : String) (d : Downloadable)
    (hd : d ∈ st.to_download) (hne : f ≠ d.filename) :
    d ∈ (reconcileStep st f).to_download := by
  unfold reconcileStep
  cases hfp : findPosition (fun thing => f == thing.filename) st.to_download with
  | some ix =>
    obtain ⟨i, x⟩ := ix
    obtain ⟨hi, hget, hpred⟩ := findPosition_some _ _ _ _ hfp
    show d ∈ swapRemove st.to_download i
    apply mem_swapRemove_of_get_ne _ _ hi _ hd
    intro heq
    apply hne
    have hfx : f = x.filename := by simpa using hpred
    rw [hfx, ← hget.symm.trans heq]
  | none =>
    cases findPosition (fun thing => f == thing.1) st.to_install with
    | some ix => exact hd
    | none => exact hd

theorem reconcileStep_mem_to_install (st : ReconState) (f : String) (e : String × String)
    (he : e ∈ st.to_install) (hne : f ≠ e.1) :
    e ∈ (reconcileStep st f).to_install := by
  unfold reconcileStep
  cases hfp : findPosition (fun thing => f == thing.filename) st.to_download with
  | some ix => exact he
  | none =>
    cases hfp2 : findPosition (fun thing => f == thing.1) st.to_install with
    | some ix =>
      obtain ⟨i, x⟩ := ix
      obtain ⟨hi, hget, hpred⟩ := findPosition_some _ _ _ _ hfp2
      show e ∈ swapRemove st.to_install i
      apply mem_swapRemove_of_get_ne _ _ hi _ he
      intro heq
      apply hne
      have hfx : f = x.1 := by simpa using hpred
      rw [hfx, ← hget.symm.trans heq]
    | none => exact he

theorem reconcile_mem_to_download (files : List String) (st : ReconState)
    (d : Downloadable) (hd : d ∈ st.to_download)
    (hne : ∀ f ∈ files, f ≠ d.filename) :
    d ∈ (reconcile files st).to_download := by
  induction files generalizing st with
  | nil => exact hd
  | cons f rest ih =>
    exact ih (reconcileStep st f)
      (reconcileStep_mem_to_download st f d hd (hne f (List.mem_cons_self _ _)))
      (fun g hg => hne g (List.mem_cons_of_mem _ hg))

theorem reconcile_mem_to_install (files : List String) (st : ReconState)
    (e : String × String) (he : e ∈ st.to_install)
    (hne : ∀ f ∈ files, f ≠ e.1) :
    e ∈ (reconcile files st).to_install := by
  induction files generalizing st with
  | nil => exact he
  | cons f rest ih =>
    exact ih (reconcileStep st f)
      (reconcileStep_mem_to_install st f e he (hne f (List.mem_cons_self _ _)))
      (fun g hg => hne g (List.mem_cons_of_mem _ hg))

theorem reconcileStep_to_install_nil (st : ReconState) (f : String)
    (h : st.to_install = []) : (reconcileStep st f).to_install = [] := by
  unfold reconcileStep
  rw [h]
  cases findPosition (fun thing => f == thing.filename) st.to_download <;> rfl

theorem reconcile_to_install_nil (files : List String) (st : ReconState)
    (h : st.to_install = []) : (reconcile files st).to_install = [] := by
  induction files generalizing st with
  | nil => exact h
  | cons f rest ih => exact ih (reconcileStep st f) (reconcileStep_to_install_nil st f h)

theorem reconcileStep_movedToOld_extends (st : ReconState) (f : String) :
    ∃ tail, (reconcileStep st f).movedToOld = st.movedToOld ++ tail := by
  unfold reconcileStep
  cases findPosition (fun thing => f == thing.filename) st.to_download with
  | some ix => exact ⟨[], by simp⟩
  | none =>
    cases findPosition (fun thing => f == thing.1) st.to_install with
    | some ix => exact ⟨[], by simp⟩
    | none => exact ⟨[f], rfl⟩

theorem reconcile_movedToOld_extends (files : List String) (st : ReconState) :
    ∃ tail, (reconcile files st).movedToOld = st.movedToOld ++ tail := by
  induction files generalizing st with
  | nil => exact ⟨[], by simp [reconcile]⟩
  | cons f rest ih =>
    obtain ⟨t1, h1⟩ := reconcileStep_movedToOld_extends st f
    obtain ⟨t2, h2⟩ := ih (reconcileStep st f)
    exact ⟨t1 ++ t2, by rw [show reconcile (f :: rest) st = reconcile rest (reconcileStep st f) from rfl,
      h2, h1, List.append_assoc]⟩

/-- C4: when at least one mod's fetch fails, every other mod still resolves
(its `Downloadable` is in the accumulator), the aggregate error flag is set,
the operation's final result is the aggregated error of line 302, and the
download phase still fetches every resolved file that is not already present
in the output directory before that error is returned. -/
theorem C4_nonfatal_failure_still_resolves_and_downloads (o : FetchOracle)
    (p : Profile) (fs : Fs) (out : UpgradeOutcome)
    (hrun : upgradeRun o p fs = some out)
    (herr : ∃ m ∈ p.mods, ∃ e bc, runTask o p m = some (.error e, bc)) :
    (∀ m ∈ p.mods, ∀ d bc, runTask o p m = some (.ok d, bc) →
        d ∈ out.resolved.to_download) ∧
    out.resolved.error = true ∧
    out.result = .error aggregateErrorMessage ∧
    (∀ d ∈ out.resolved.to_download, d.filename ∉ fs.rootFiles → d ∈ out.downloaded) := by
  unfold upgradeRun at hrun
  cases hres : resolveProfile o p with
  | none => rw [hres] at hrun; simp at hrun
  | some st =>
    rw [hres] at hrun
    simp only [Option.bind_eq_bind, Option.some_bind, Option.some.injEq] at hrun
    subst hrun
    obtain ⟨hdl, herrc, hbc⟩ := resolveMods_char o p p.mods st hres
    have herrflag : st.error = true := by
      rw [herrc, List.any_eq_true]
      obtain ⟨m, hm, e, bc, hr⟩ := herr
      exact ⟨m, hm, by simp [taskErred, hr]⟩
    refine ⟨?_, herrflag, ?_, ?_⟩
    · intro m hm d bc hr
      show d ∈ st.to_download
      rw [hdl]
      exact List.mem_filterMap.mpr ⟨m, hm, by simp [taskDownload?, hr]⟩
    · show (if st.error = true then Except.error aggregateErrorMessage else Except.ok ())
        = Except.error aggregateErrorMessage
      rw [if_pos herrflag]
    · intro d hd hnotroot
      show d ∈ (reconcile fs.rootFiles
        { to_download := st.to_download, to_install := gatherToInstall fs,
          movedToOld := [] }).to_download
      apply reconcile_mem_to_download _ _ _ hd
      intro f hf heq
      exact hnotroot (heq ▸ hf)

/-- C4 witness: the failing-X profile still resolves and downloads Z and
ends with the aggregated error. -/
theorem C4_witness :
    (∀ m ∈ profileXZ.mods, ∀ d bc, runTask oracleFailX profileXZ m = some (.ok d, bc) →
        d ∈ outXZ.resolved.to_download) ∧
    outXZ.resolved.error = true ∧
    outXZ.result = .error aggregateErrorMessage ∧
    (∀ d ∈ outXZ.resolved.to_download, d.filename ∉ fsEmpty.rootFiles →
        d ∈ outXZ.downloaded) :=
  C4_nonfatal_failure_still_resolves_and_downloads oracleFailX profileXZ fsEmpty outXZ
    (by decide) ⟨modX, by decide, .otherError false false, false, by decide⟩

theorem findPosition_eq_none_of_any_false {pred : α → Bool} {l : List α}
    (h : l.any pred = false) : findPosition pred l = none := by
  rw [findPosition_eq_none_iff]
  intro a ha
  have := List.any_eq_false.mp h a ha
  simpa using this

theorem findPosition_isSome_of_any_true {pred : α → Bool} {l : List α}
    (h : l.any pred = true) : ∃ ix, findPosition pred l = some ix := by
  cases hfp : findPosition pred l with
  | some ix => exact ⟨ix, rfl⟩
  | none =>
    obtain ⟨x, hx, hpx⟩ := List.any_eq_true.mp h
    have := (findPosition_eq_none_iff pred l).mp hfp x hx
    rw [hpx] at this
    exact absurd this (by simp)

/-- C6: each regular file of the output directory root is handled in exactly
one of three ways — its name matches a resolved item's filename, and exactly
one such entry is removed from the download list (the file is kept, the item
is not re-fetched) with the install list and the quarantine untouched; or it
matches an install candidate's name, and exactly one such candidate is
removed with the download list and the quarantine untouched; or it matches
neither and it is moved into `.old`, both lists untouched. Over a whole run
the quarantine list only ever grows — no existing file is deleted. -/
theorem C6_reconciliation_trichotomy_never_deletes :
    (∀ (st : ReconState) (f : String),
      (st.to_download.any (fun t => f == t.filename) = true →
        (reconcileStep st f).to_download.countP (fun t => f == t.filename) + 1
            = st.to_download.countP (fun t => f == t.filename) ∧
        (reconcileStep st f).to_download.length + 1 = st.to_download.length ∧
        (reconcileStep st f).to_install = st.to_install ∧
        (reconcileStep st f).movedToOld = st.movedToOld) ∧
      (st.to_download.any (fun t => f == t.filename) = false →
        st.to_install.any (fun t => f == t.1) = true →
        (reconcileStep st f).to_install.countP (fun t => f == t.1) + 1
            = st.to_install.countP (fun t => f == t.1) ∧
        (reconcileStep st f).to_install.length + 1 = st.to_install.length ∧
        (reconcileStep st f).to_download = st.to_download ∧
        (reconcileStep st f).movedToOld = st.movedToOld) ∧
      (st.to_download.any (fun t => f == t.filename) = false →
        st.to_install.any (fun t => f == t.1) = false →
        (reconcileStep st f).to_download = st.to_download ∧
        (reconcileStep st f).to_install = st.to_install ∧
        (reconcileStep st f).movedToOld = st.movedToOld ++ [f])) ∧
    (∀ (files : List String) (st : ReconState),
      ∃ tail, (reconcile files st).movedToOld = st.movedToOld ++ tail) := by
  constructor
  · intro st f
    refine ⟨?_, ?_, ?_⟩
    · intro hany
      obtain ⟨ix, hfp⟩ := findPosition_isSome_of_any_true hany
      obtain ⟨i, x⟩ := ix
      obtain ⟨hi, hget, hpred⟩ := findPosition_some _ _ _ _ hfp
      have hstep : reconcileStep st f
          = { st with to_download := swapRemove st.to_download i } := by
        unfold reconcileStep
        rw [hfp]
      rw [hstep]
      exact ⟨swapRemove_countP _ _ _ hi (by rw [hget]; exact hpred),
        swapRemove_length _ _ hi, rfl, rfl⟩
    · intro hanyd hanyi
      have hfpd : findPosition (fun t => f == t.filename) st.to_download = none :=
        findPosition_eq_none_of_any_false hanyd
      obtain ⟨ix, hfp⟩ := findPosition_isSome_of_any_true hanyi
      obtain ⟨i, x⟩ := ix
      obtain ⟨hi, hget, hpred⟩ := findPosition_some _ _ _ _ hfp
      have hstep : reconcileStep st f
          = { st with to_install := swapRemove st.to_install i } := by
        unfold reconcileStep
        rw [hfpd, hfp]
      rw [hstep]
      exact ⟨swapRemove_countP _ _ _ hi (by rw [hget]; exact hpred),
        swapRemove_length _ _ hi, rfl, rfl⟩
    · intro hanyd hanyi
      have hfpd : findPosition (fun t => f == t.filename) st.to_download = none :=
        findPosition_eq_none_of_any_false hanyd
      have hfpi : findPosition (fun t => f == t.1) st.to_install = none :=
        findPosition_eq_none_of_any_false hanyi
      have hstep : reconcileStep st f
          = { st with movedToOld := st.movedToOld ++ [f] } := by
        unfold reconcileStep
        rw [hfpd, hfpi]
      rw [hstep]
      exact ⟨rfl, rfl, rfl⟩
  · exact reconcile_movedToOld_extends

/-- C6 witness: a root file matching the resolved item "x.jar" removes
exactly that entry from the download list and touches nothing else. -/
theorem C6_witness :
    (reconcileStep reconStW "x.jar").to_download.countP
        (fun t => "x.jar" == t.filename) + 1
      = reconStW.to_download.countP (fun t => "x.jar" == t.filename) ∧
    (reconcileStep reconStW "x.jar").to_download.length + 1
      = reconStW.to_download.length ∧
    (reconcileStep reconStW "x.jar").to_install = reconStW.to_install ∧
    (reconcileStep reconStW "x.jar").movedToOld = reconStW.movedToOld :=
  (C6_reconciliation_trichotomy_never_deletes.1 reconStW "x.jar").1 (by decide)

theorem le_foldr_max_of_mem {a : Nat} {l : List Nat} (h : a ∈ l) :
    a ≤ l.foldr max 0 := by
  induction l with
  | nil => simp at h
  | cons b rest ih =>
    simp only [List.foldr_cons]
    rcases List.mem_cons.mp h with rfl | hmem
    · exact Nat.le_max_left _ _
    · exact Nat.le_trans (ih hmem) (Nat.le_max_right _ _)

theorem foldr_max_le {l : List Nat} {b : Nat} (h : ∀ a ∈ l, a ≤ b) :
    l.foldr max 0 ≤ b := by
  induction l with
  | nil => exact Nat.zero_le b
  | cons c rest ih =>
    simp only [List.foldr_cons]
    exact Nat.max_le.mpr
      ⟨h c (List.mem_cons_self _ _), ih (fun a ha => h a (List.mem_cons_of_mem _ ha))⟩

theorem startedBy_iff (evs : List FetchEvent) (i : Nat) :
    startedBy evs i = true ↔ FetchEvent.start i ∈ evs := by
  unfold startedBy
  exact List.elem_iff

theorem finishedBy_iff (evs : List FetchEvent) (i : Nat) :
    finishedBy evs i = true ↔ FetchEvent.finish i ∈ evs := by
  unfold finishedBy
  exact List.elem_iff

theorem inFlightAfter_le (n : Nat) (evs : List FetchEvent) :
    inFlightAfter n evs ≤ n := by
  unfold inFlightAfter
  calc (List.filter _ (List.range n)).length
      ≤ (List.range n).length := List.length_filter_le _ _
    _ = n := List.length_range n

theorem maxInFlight_le (n : Nat) (evs : List FetchEvent) : maxInFlight n evs ≤ n := by
  unfold maxInFlight
  apply foldr_max_le
  intro a ha
  obtain ⟨k, hk, rfl⟩ := List.mem_map.mp ha
  exact inFlightAfter_le n _

theorem validSchedule_all_starts (n : Nat) :
    ValidSchedule n ((List.range n).map FetchEvent.start) := by
  constructor
  · intro e he
    obtain ⟨i, hi, rfl⟩ := List.mem_map.mp he
    simpa [FetchEvent.task] using List.mem_range.mp hi
  · intro i hi
    have hinj : Function.Injective FetchEvent.start := by
      intro a b hab
      injection hab
    have hnodup : ((List.range n).map FetchEvent.start).Nodup :=
      (List.nodup_range n).map hinj
    refine ⟨List.nodup_iff_count_le_one.mp hnodup _, ?_, ?_⟩
    · have hnot : FetchEvent.finish i ∉ (List.range n).map FetchEvent.start := by
        intro hmem
        obtain ⟨j, hj, hje⟩ := List.mem_map.mp hmem
        exact FetchEvent.noConfusion hje
      rw [List.count_eq_zero.mpr hnot]
      omega
    · intro hfin
      rw [finishedBy_iff] at hfin
      obtain ⟨j, hj, hje⟩ := List.mem_map.mp hfin
      exact FetchEvent.noConfusion hje

theorem maxInFlight_all_starts (n : Nat) :
    maxInFlight n ((List.range n).map FetchEvent.start) = n := by
  apply Nat.le_antisymm (maxInFlight_le _ _)
  unfold maxInFlight
  apply le_foldr_max_of_mem
  apply List.mem_map.mpr
  refine ⟨((List.range n).map FetchEvent.start).length, ?_, ?_⟩
  · apply List.mem_range.mpr
    omega
  · rw [List.take_length]
    unfold inFlightAfter
    rw [List.filter_eq_self.mpr, List.length_range]
    intro i hi
    have hii : i < n := List.mem_range.mp hi
    have hs : startedBy ((List.range n).map FetchEvent.start) i = true :=
      (startedBy_iff _ _).mpr (List.mem_map.mpr ⟨i, List.mem_range.mpr hii, rfl⟩)
    have hf : finishedBy ((List.range n).map FetchEvent.start) i = false := by
      cases hfb : finishedBy ((List.range n).map FetchEvent.start) i with
      | false => rfl
      | true =>
        rw [finishedBy_iff] at hfb
        obtain ⟨j, hj, hje⟩ := List.mem_map.mp hfb
        exact FetchEvent.noConfusion hje
    rw [hs, hf]
    rfl

/-- C7 counterexample: no constant bounds the number of simultaneously
in-flight fetches across profiles — for every candidate limit `c` there is a
well-formed schedule (all of `c + 1` spawned tasks inside their fetch at
once) exceeding it. The spawn loop (lines 76–224) spawns every task
unconditionally and the task body acquires no permit before its network
call, so every well-formed schedule is admissible. -/
theorem C7_counterexample :
    ¬ ∃ c : Nat, ∀ (n : Nat) (evs : List FetchEvent),
      ValidSchedule n evs → maxInFlight n evs ≤ c := by
  rintro ⟨c, hc⟩
  have h := hc (c + 1) ((List.range (c + 1)).map FetchEvent.start)
    (validSchedule_all_starts (c + 1))
  rw [maxInFlight_all_starts] at h
  omega

/-- C7 amended: the code has no concurrency limiter; the number of in-flight
fetches is bounded only by the number of spawned tasks (one per profile
mod), and that bound is attained by the schedule in which every task is
inside its fetch simultaneously. -/
theorem C7_in_flight_bounded_only_by_task_count :
    (∀ (n : Nat) (evs : List FetchEvent), ValidSchedule n evs →
      maxInFlight n evs ≤ n) ∧
    (∀ n : Nat, ValidSchedule n ((List.range n).map FetchEvent.start) ∧
      maxInFlight n ((List.range n).map FetchEvent.start) = n) :=
  ⟨fun n evs _ => maxInFlight_le n evs,
   fun n => ⟨validSchedule_all_starts n, maxInFlight_all_starts n⟩⟩

/-- C7 witness: the task-count bound applied to a concrete two-task
schedule with both fetches in flight. -/
theorem C7_witness :
    maxInFlight 2 [FetchEvent.start 0, FetchEvent.start 1] ≤ 2 :=
  C7_in_flight_bounded_only_by_task_count.1 2 _ (by decide)

/-- C8 counterexample: there is no loader variant that suppresses gathering
of the `user` subdirectory — for every candidate "disallowing" loader, a run
with that loader and a populated `user` subdirectory still installs its
files (the scan of lines 238–247 never consults the loader). -/
theorem C8_counterexample :
    ¬ ∃ bad : ModLoader, ∀ (o : FetchOracle) (p : Profile) (fs : Fs)
      (out : UpgradeOutcome),
      p.mod_loader = bad → upgradeRun o p fs = some out → out.installed = [] := by
  rintro ⟨bad, hbad⟩
  have h := hbad oracleNoDep
    { mods := [], game_version := "1.19", mod_loader := bad } fsUser
    { resolved := ⟨[], false, false⟩, notice := false, movedToOld := [],
      downloaded := [], installed := [("extra.jar", "user/extra.jar")],
      result := .ok () }
    rfl rfl
  exact absurd h (by decide)

/-- C8 amended: the manual-install list is gathered from the `user`
subdirectory whenever that subdirectory exists, regardless of the profile's
loader; when it does not exist the install list is empty, and every
gathered file whose name no root file duplicates survives reconciliation
and is copied into the output root during the install phase. -/
theorem C8_user_scan_unconditional_on_loader (o : FetchOracle) (p : Profile)
    (fs : Fs) (out : UpgradeOutcome) (hrun : upgradeRun o p fs = some out) :
    (fs.userFiles = none → out.installed = []) ∧
    (∀ fl, fs.userFiles = some fl → ∀ n ∈ fl, n ∉ fs.rootFiles →
      (n, "user/" ++ n) ∈ out.installed) := by
  unfold upgradeRun at hrun
  cases hres : resolveProfile o p with
  | none => rw [hres] at hrun; simp at hrun
  | some st =>
    rw [hres] at hrun
    simp only [Option.bind_eq_bind, Option.some_bind, Option.some.injEq] at hrun
    subst hrun
    constructor
    · intro hnone
      show (reconcile fs.rootFiles
        { to_download := st.to_download, to_install := gatherToInstall fs,
          movedToOld := [] }).to_install = []
      apply reconcile_to_install_nil
      show gatherToInstall fs = []
      unfold gatherToInstall
      rw [hnone]
    · intro fl hsome n hn hnroot
      show (n, "user/" ++ n) ∈ (reconcile fs.rootFiles
        { to_download := st.to_download, to_install := gatherToInstall fs,
          movedToOld := [] }).to_install
      apply reconcile_mem_to_install
      · show (n, "user/" ++ n) ∈ gatherToInstall fs
        unfold gatherToInstall
        rw [hsome]
        exact List.mem_map.mpr ⟨n, hn, rfl⟩
      · intro f hf heq
        have hfn : f = n := heq
        exact hnroot (hfn ▸ hf)

/-- C8 witness: a `user` subdirectory file is gathered and installed even
though the profile's loader is arbitrary, and absence of the subdirectory
yields an empty install list. -/
theorem C8_witness :
    (fsUser.userFiles = none → outXUser.installed = []) ∧
    (∀ fl, fsUser.userFiles = some fl → ∀ n ∈ fl, n ∉ fsUser.rootFiles →
      (n, "user/" ++ n) ∈ outXUser.installed) :=
  C8_user_scan_unconditional_on_loader oracleNoDep profileX fsUser outXUser (by decide)

theorem isNoCompatibleFile_iff_errOf {α : Type} (r : Except UpgradeError α) :
    isNoCompatibleFile r = true ↔ errOf r = some UpgradeError.noCompatibleFile := by
  cases r with
  | ok a => simp [isNoCompatibleFile, errOf]
  | error e => cases e <;> simp [isNoCompatibleFile, errOf]

theorem taskBackwardsCompatSuccess_iff (o : FetchOracle) (p : Profile) (m : Mod) :
    taskBackwardsCompatSuccess o p m = true ↔
      ∃ d, runTask o p m = some (.ok d, true) := by
  unfold taskBackwardsCompatSuccess
  cases hr : runTask o p m with
  | none => simp
  | some r =>
    obtain ⟨res, bc⟩ := r
    cases res with
    | ok d =>
      cases bc with
      | true => simp
      | false => simp
    | error e =>
      cases bc with
      | true => simp
      | false => simp

/-- C9: the Quilt→Fabric retry fires exactly when the profile loader is
Quilt and the first fetch failed with `NoCompatibleFile`; the retry redoes
the same platform call with the Fabric loader and every other argument
unchanged, and its outcome carries the distinct marker (`true`, printed as
the yellow tick); in every other situation the task's outcome is the first
attempt's result (modulo the CurseForge same-arguments status retry) with
the ordinary marker; and the one-time backwards-compatibility notice prints
after all tasks exactly when some task succeeded through the retry. -/
theorem C9_quilt_fabric_fallback (o : FetchOracle) (p : Profile) (m : Mod) :
    ((p.mod_loader = ModLoader.quilt ∧
        firstAttemptError o p m = some UpgradeError.noCompatibleFile) →
      runTask o p m
        = (attemptResult o p m ModLoader.fabric).map (fun r => (r, true))) ∧
    (¬ (p.mod_loader = ModLoader.quilt ∧
        firstAttemptError o p m = some UpgradeError.noCompatibleFile) →
      runTask o p m
        = (attemptResult o p m p.mod_loader).map (fun r => (r, false))) ∧
    (∀ (fs : Fs) (out : UpgradeOutcome), upgradeRun o p fs = some out →
      (out.notice = true ↔
        ∃ m' ∈ p.mods, ∃ d, runTask o p m' = some (.ok d, true))) := by
  refine ⟨?_, ?_, ?_⟩
  · rintro ⟨hq, hfe⟩
    cases hid : m.identifier with
    | curseForgeProject pid =>
      rw [firstAttemptError, hid] at hfe
      have hnc := (isNoCompatibleFile_iff_errOf _).mpr hfe
      simp only [runTask, hid, attemptResult]
      rw [if_pos ⟨hnc, hq⟩]
      rfl
    | modrinthProject pid =>
      rw [firstAttemptError, hid] at hfe
      have hnc := (isNoCompatibleFile_iff_errOf _).mpr hfe
      simp only [runTask, hid, attemptResult]
      rw [if_pos ⟨hnc, hq⟩]
    | gitHubRepository owner repo =>
      rw [firstAttemptError, hid] at hfe
      have hnc := (isNoCompatibleFile_iff_errOf _).mpr hfe
      simp only [runTask, hid, attemptResult]
      rw [if_pos ⟨hnc, hq⟩]
      rfl
  · intro hn
    cases hid : m.identifier with
    | curseForgeProject pid =>
      have hcond : ¬ (isNoCompatibleFile (o.curseforge pid p.game_version p.mod_loader
          m.check_game_version m.check_mod_loader) = true ∧
          p.mod_loader = ModLoader.quilt) := by
        rintro ⟨h1, h2⟩
        apply hn
        refine ⟨h2, ?_⟩
        rw [firstAttemptError, hid]
        exact (isNoCompatibleFile_iff_errOf _).mp h1
      simp only [runTask, hid, attemptResult]
      rw [if_neg hcond]
      by_cases hs : isCurseForgeStatusError (o.curseforge pid p.game_version p.mod_loader
          m.check_game_version m.check_mod_loader) = true
      · rw [if_pos hs]
        rfl
      · rw [if_neg hs]
        rfl
    | modrinthProject pid =>
      have hcond : ¬ (isNoCompatibleFile (o.modrinth pid p.game_version p.mod_loader
          m.check_game_version m.check_mod_loader) = true ∧
          p.mod_loader = ModLoader.quilt) := by
        rintro ⟨h1, h2⟩
        apply hn
        refine ⟨h2, ?_⟩
        rw [firstAttemptError, hid]
        exact (isNoCompatibleFile_iff_errOf _).mp h1
      simp only [runTask, hid, attemptResult]
      rw [if_neg hcond]
    | gitHubRepository owner repo =>
      have hcond : ¬ (isNoCompatibleFile (o.github (owner, repo) p.game_version p.mod_loader
          m.check_game_version m.check_mod_loader) = true ∧
          p.mod_loader = ModLoader.quilt) := by
        rintro ⟨h1, h2⟩
        apply hn
        refine ⟨h2, ?_⟩
        rw [firstAttemptError, hid]
        exact (isNoCompatibleFile_iff_errOf _).mp h1
      simp only [runTask, hid, attemptResult]
      rw [if_neg hcond]
      rfl
  · intro fs out hrun
    unfold upgradeRun at hrun
    cases hres : resolveProfile o p with
    | none => rw [hres] at hrun; simp at hrun
    | some st =>
      rw [hres] at hrun
      simp only [Option.bind_eq_bind, Option.some_bind, Option.some.injEq] at hrun
      subst hrun
      obtain ⟨-, -, hbc⟩ := resolveMods_char o p p.mods st hres
      show st.backwards_compat_msg = true ↔ _
      rw [hbc, List.any_eq_true]
      constructor
      · rintro ⟨m', hm', hb⟩
        exact ⟨m', hm', (taskBackwardsCompatSuccess_iff o p m').mp hb⟩
      · rintro ⟨m', hm', hd⟩
        exact ⟨m', hm', (taskBackwardsCompatSuccess_iff o p m').mpr hd⟩

/-- C9 witness: a Quilt profile whose first Modrinth fetch fails with
`NoCompatibleFile` is retried with the Fabric loader and flagged with the
distinct marker. -/
theorem C9_witness :
    runTask oracleQuiltNoCompat profileQuilt modX
      = (attemptResult oracleQuiltNoCompat profileQuilt modX ModLoader.fabric).map
          (fun r => (r, true)) :=
  (C9_quilt_fabric_fallback oracleQuiltNoCompat profileQuilt modX).1 ⟨rfl, by decide⟩

end Ferium
